import Mathlib

/-!
Shallow embedding of the Argon2 POWER8/VSX block-filling engine
(`src/opt-vsx.c` and `src/blake2/blamka-round-vsx.h`).

A 1024-byte Argon2 block is 128 unsigned 64-bit words, viewed by the
vectorized code as 64 two-word (16-byte) VSX registers arranged in an
8 x 8 grid.  Machine words are modelled as `Nat` with explicit `% 2^64`
wherever the C code wraps; a two-word register is a pair of words; the
8 x 8 grid is an `Oct` of `Oct`s of pairs.

The POWER8 intrinsics are translated under the little-endian (ELFv2)
semantics the file is compiled for: `vec_perm` indexes bytes in memory
order (byte 0 = least significant byte of the first word), `vec_mule`
multiplies the even (low-half) 32-bit elements of each 64-bit lane, and
`vec_xl`/`vec_xst` load and store words in memory order.
-/

namespace ArgonVSX

/-- A homogeneous 8-tuple; used for the 8 registers of one BLAKE2 row and
for the 8 rows of a block. -/
structure Oct (α : Type) where
  g0 : α
  g1 : α
  g2 : α
  g3 : α
  g4 : α
  g5 : α
  g6 : α
  g7 : α
deriving DecidableEq, Repr

/-- One 16-byte VSX register: two 64-bit words, `(v[2i], v[2i+1])` in
little-endian memory order. -/
abbrev Lane : Type := Nat × Nat

/-- One 1024-byte Argon2 block: 8 rows of 8 registers of 2 words
(= 128 64-bit words).  Word `v[k]` lives at row `k / 16`, register
`k / 2 % 8`, half `k % 2`. -/
abbrev Block : Type := Oct (Oct Lane)

def Oct.get (o : Oct α) (k : Nat) : α :=
  match k with
  | 0 => o.g0
  | 1 => o.g1
  | 2 => o.g2
  | 3 => o.g3
  | 4 => o.g4
  | 5 => o.g5
  | 6 => o.g6
  | _ => o.g7

def Oct.set (o : Oct α) (k : Nat) (a : α) : Oct α :=
  match k with
  | 0 => ⟨a, o.g1, o.g2, o.g3, o.g4, o.g5, o.g6, o.g7⟩
  | 1 => ⟨o.g0, a, o.g2, o.g3, o.g4, o.g5, o.g6, o.g7⟩
  | 2 => ⟨o.g0, o.g1, a, o.g3, o.g4, o.g5, o.g6, o.g7⟩
  | 3 => ⟨o.g0, o.g1, o.g2, a, o.g4, o.g5, o.g6, o.g7⟩
  | 4 => ⟨o.g0, o.g1, o.g2, o.g3, a, o.g5, o.g6, o.g7⟩
  | 5 => ⟨o.g0, o.g1, o.g2, o.g3, o.g4, a, o.g6, o.g7⟩
  | 6 => ⟨o.g0, o.g1, o.g2, o.g3, o.g4, o.g5, a, o.g7⟩
  | _ => ⟨o.g0, o.g1, o.g2, o.g3, o.g4, o.g5, o.g6, a⟩

def Oct.map (f : α → β) (o : Oct α) : Oct β :=
  ⟨f o.g0, f o.g1, f o.g2, f o.g3, f o.g4, f o.g5, f o.g6, f o.g7⟩

def Oct.map2 (f : α → β → γ) (x : Oct α) (y : Oct β) : Oct γ :=
  ⟨f x.g0 y.g0, f x.g1 y.g1, f x.g2 y.g2, f x.g3 y.g3,
   f x.g4 y.g4, f x.g5 y.g5, f x.g6 y.g6, f x.g7 y.g7⟩

def Oct.const (a : α) : Oct α :=
  ⟨a, a, a, a, a, a, a, a⟩

/-- Transpose of the 8 x 8 register grid: entry `(i, j)` of the result is
entry `(j, i)` of the argument.  Used to express the column rounds of
`fill_block` through the row-round machinery. -/
def Oct.transpose (m : Oct (Oct α)) : Oct (Oct α) :=
  ⟨⟨m.g0.g0, m.g1.g0, m.g2.g0, m.g3.g0, m.g4.g0, m.g5.g0, m.g6.g0, m.g7.g0⟩,
   ⟨m.g0.g1, m.g1.g1, m.g2.g1, m.g3.g1, m.g4.g1, m.g5.g1, m.g6.g1, m.g7.g1⟩,
   ⟨m.g0.g2, m.g1.g2, m.g2.g2, m.g3.g2, m.g4.g2, m.g5.g2, m.g6.g2, m.g7.g2⟩,
   ⟨m.g0.g3, m.g1.g3, m.g2.g3, m.g3.g3, m.g4.g3, m.g5.g3, m.g6.g3, m.g7.g3⟩,
   ⟨m.g0.g4, m.g1.g4, m.g2.g4, m.g3.g4, m.g4.g4, m.g5.g4, m.g6.g4, m.g7.g4⟩,
   ⟨m.g0.g5, m.g1.g5, m.g2.g5, m.g3.g5, m.g4.g5, m.g5.g5, m.g6.g5, m.g7.g5⟩,
   ⟨m.g0.g6, m.g1.g6, m.g2.g6, m.g3.g6, m.g4.g6, m.g5.g6, m.g6.g6, m.g7.g6⟩,
   ⟨m.g0.g7, m.g1.g7, m.g2.g7, m.g3.g7, m.g4.g7, m.g5.g7, m.g6.g7, m.g7.g7⟩⟩

/-- `v[k]` of a block, `k < 128`: the little-endian 64-bit word at byte
offset `8 * k`. -/
def Block.word (b : Block) (k : Nat) : Nat :=
  let lane := (b.get (k / 16)).get (k / 2 % 8)
  if k % 2 = 0 then lane.1 else lane.2

/-- Overwrite `v[k]` of a block. -/
def Block.setWord (b : Block) (k : Nat) (x : Nat) : Block :=
  let row := b.get (k / 16)
  let lane := row.get (k / 2 % 8)
  let lane1 := if k % 2 = 0 then (x, lane.2) else (lane.1, x)
  b.set (k / 16) (row.set (k / 2 % 8) lane1)

/-- The all-zero block (`memset(..., 0, ...)` / `init_block_value(b, 0)`). -/
def zeroBlock : Block := Oct.const (Oct.const (0, 0))

/-- Lane-wise XOR of two VSX registers (`vec_xor`). -/
def laneXor (x y : Lane) : Lane := (x.1 ^^^ y.1, x.2 ^^^ y.2)

/-- Element-wise XOR of two blocks (the fused `vec_xor` loops of
`fill_block`). -/
def xorB (x y : Block) : Block := Oct.map2 (Oct.map2 laneXor) x y

/-- `fBlaMka_vsx`, translated per 64-bit lane: `vec_mule` of the 32-bit
reinterpretations multiplies the low 32-bit halves of each 64-bit lane,
and each `vec_add` wraps modulo `2^64`. -/
def fBlaMka_vsx (x y : Nat) : Nat :=
  let z := (x % 2^32) * (y % 2^32)
  ((x + y) % 2^64 + (z + z) % 2^64) % 2^64

/-- `VSX_ROTI_EPI64(x, -32)`: `vec_perm` with `ROT32_PERM`
`{4,5,6,7, 0,1,2,3, ...}` — result byte `i` of each 8-byte lane is source
byte `(i + 4) % 8` in little-endian byte order. -/
def rotPerm32 (x : Nat) : Nat :=
  x / 2^(8*4) % 2^8           + x / 2^(8*5) % 2^8 * 2^8  +
  x / 2^(8*6) % 2^8 * 2^16    + x / 2^(8*7) % 2^8 * 2^24 +
  x / 2^(8*0) % 2^8 * 2^32    + x / 2^(8*1) % 2^8 * 2^40 +
  x / 2^(8*2) % 2^8 * 2^48    + x / 2^(8*3) % 2^8 * 2^56

/-- `VSX_ROTI_EPI64(x, -24)`: `vec_perm` with `ROT24_PERM`
`{3,4,5,6,7,0,1,2, ...}`. -/
def rotPerm24 (x : Nat) : Nat :=
  x / 2^(8*3) % 2^8           + x / 2^(8*4) % 2^8 * 2^8  +
  x / 2^(8*5) % 2^8 * 2^16    + x / 2^(8*6) % 2^8 * 2^24 +
  x / 2^(8*7) % 2^8 * 2^32    + x / 2^(8*0) % 2^8 * 2^40 +
  x / 2^(8*1) % 2^8 * 2^48    + x / 2^(8*2) % 2^8 * 2^56

/-- `VSX_ROTI_EPI64(x, -16)`: `vec_perm` with `ROT16_PERM`
`{2,3,4,5,6,7,0,1, ...}`. -/
def rotPerm16 (x : Nat) : Nat :=
  x / 2^(8*2) % 2^8           + x / 2^(8*3) % 2^8 * 2^8  +
  x / 2^(8*4) % 2^8 * 2^16    + x / 2^(8*5) % 2^8 * 2^24 +
  x / 2^(8*6) % 2^8 * 2^32    + x / 2^(8*7) % 2^8 * 2^40 +
  x / 2^(8*0) % 2^8 * 2^48    + x / 2^(8*1) % 2^8 * 2^56

/-- `VSX_ROTI_EPI64(x, -63)`:
`vec_xor(vec_sr(x, {63,63}), vec_add(x, x))` per 64-bit lane. -/
def vsxRot63 (x : Nat) : Nat :=
  (x >>> 63) ^^^ ((x + x) % 2^64)

/-- The scalar (per 64-bit word) action of `G1_VSX` on one working
quadruple, exactly the statement sequence of the macro. -/
def g1 (a b c d : Nat) : Nat × Nat × Nat × Nat :=
  let a1 := fBlaMka_vsx a b
  let d1 := rotPerm32 (d ^^^ a1)
  let c1 := fBlaMka_vsx c d1
  let b1 := rotPerm24 (b ^^^ c1)
  (a1, b1, c1, d1)

/-- The scalar (per 64-bit word) action of `G2_VSX` on one working
quadruple. -/
def g2 (a b c d : Nat) : Nat × Nat × Nat × Nat :=
  let a1 := fBlaMka_vsx a b
  let d1 := rotPerm16 (d ^^^ a1)
  let c1 := fBlaMka_vsx c d1
  let b1 := vsxRot63 (b ^^^ c1)
  (a1, b1, c1, d1)

/-- Lift a scalar quadruple transform to 16-byte registers: each of the
two 64-bit words of the four registers is transformed independently
(the VSX ops are all lane-wise). -/
def laneQuad (f : Nat → Nat → Nat → Nat → Nat × Nat × Nat × Nat)
    (A B C D : Lane) : Lane × Lane × Lane × Lane :=
  let l := f A.1 B.1 C.1 D.1
  let h := f A.2 B.2 C.2 D.2
  ((l.1, h.1), (l.2.1, h.2.1), (l.2.2.1, h.2.2.1), (l.2.2.2, h.2.2.2))

/-- `vec_perm(X, Y, ALIGNR8_01)` with pattern `{8..15, 16..23}`: high
8 bytes of `X` followed by low 8 bytes of `Y` (little-endian memory
order), i.e. `(X.2, Y.1)` at word granularity. -/
def alignr (x y : Lane) : Lane := (x.2, y.1)

/-- `DIAGONALIZE_VSX` on the six registers it permutes, in the macro's
argument order `(B0, B1, C0, C1, D0, D1)`. -/
def diagonalize (B0 B1 C0 C1 D0 D1 : Lane) :
    Lane × Lane × Lane × Lane × Lane × Lane :=
  let t0 := alignr B0 B1
  let t1 := alignr B1 B0
  let u0 := alignr D0 D1
  let u1 := alignr D1 D0
  (t0, t1, C1, C0, u1, u0)

/-- `UNDIAGONALIZE_VSX` on the six registers it permutes. -/
def undiagonalize (B0 B1 C0 C1 D0 D1 : Lane) :
    Lane × Lane × Lane × Lane × Lane × Lane :=
  let t0 := alignr B1 B0
  let t1 := alignr B0 B1
  let u0 := alignr D1 D0
  let u1 := alignr D0 D1
  (t0, t1, C1, C0, u1, u0)

/-- `BLAKE2_ROUND_VSX(A0, A1, B0, B1, C0, C1, D0, D1)` on eight registers
given in that (memory) order: `G1; G2; DIAGONALIZE; G1; G2;
UNDIAGONALIZE`, each `G` acting on the two parallel quadruples
`(A0,B0,C0,D0)` and `(A1,B1,C1,D1)`. -/
def blake2Round (v : Oct Lane) : Oct Lane :=
  let q0 := laneQuad g1 v.g0 v.g2 v.g4 v.g6
  let q1 := laneQuad g1 v.g1 v.g3 v.g5 v.g7
  let r0 := laneQuad g2 q0.1 q0.2.1 q0.2.2.1 q0.2.2.2
  let r1 := laneQuad g2 q1.1 q1.2.1 q1.2.2.1 q1.2.2.2
  let dg := diagonalize r0.2.1 r1.2.1 r0.2.2.1 r1.2.2.1 r0.2.2.2 r1.2.2.2
  let s0 := laneQuad g1 r0.1 dg.1 dg.2.2.1 dg.2.2.2.2.1
  let s1 := laneQuad g1 r1.1 dg.2.1 dg.2.2.2.1 dg.2.2.2.2.2
  let t0 := laneQuad g2 s0.1 s0.2.1 s0.2.2.1 s0.2.2.2
  let t1 := laneQuad g2 s1.1 s1.2.1 s1.2.2.1 s1.2.2.2
  let ud := undiagonalize t0.2.1 t1.2.1 t0.2.2.1 t1.2.2.1 t0.2.2.2 t1.2.2.2
  ⟨t0.1, t1.1, ud.1, ud.2.1, ud.2.2.1, ud.2.2.2.1, ud.2.2.2.2.1, ud.2.2.2.2.2⟩

/-- The permutation network of `fill_block`: 8 row rounds
(`BLAKE2_ROUND_VSX` over `state[8i .. 8i+7]`) followed by 8 column rounds
(`BLAKE2_ROUND_VSX` over `state[i], state[8+i], ..., state[56+i]`). -/
def permuteCore (b : Block) : Block :=
  let rows := Oct.map blake2Round b
  (Oct.map blake2Round rows.transpose).transpose

/-- `fill_block(state, ref_block, next_block, with_xor)` from
`opt-vsx.c`: returns `(state, next_block)` after the call (the two are
written with the same value).  With `with_xor` the saved copy
`block_XY` additionally XORs in the old `next_block`; the permutation
network is applied to `state = state XOR ref_block` in either case. -/
def fill_block (state ref next : Block) (withXor : Bool) :
    Block × Block :=
  let state1 := xorB state ref
  let blockXY := if withXor then xorB state1 next else state1
  let state2 := permuteCore state1
  let out := xorB state2 blockXY
  (out, out)

/-- Modelled from the spec: the value tagging the older of the two
supported format revisions (public header constant `ARGON2_VERSION_10 =
0x10`; the header is not part of the sources under verification). -/
def ARGON2_VERSION_10 : Nat := 16

/-- Modelled from the spec: four synchronization slices per lane. -/
def ARGON2_SYNC_POINTS : Nat := 4

/-- Modelled from the spec: 128 pseudo-random values are drawn from one
address block before it is regenerated (public header constant, header
not part of the sources under verification). -/
def ARGON2_ADDRESSES_IN_BLOCK : Nat := 128

/-- Modelled from the spec: tag of the data-dependent variant
(`Argon2_d = 0` in the public header). -/
def Argon2_d : Nat := 0

/-- Modelled from the spec: tag of the data-independent variant
(`Argon2_i = 1` in the public header). -/
def Argon2_i : Nat := 1

/-- Modelled from the spec: tag of the hybrid variant
(`Argon2_id = 2` in the public header). -/
def Argon2_id : Nat := 2

/-- The position tuple handed to `fill_segment`
(`argon2_position_t`). -/
structure Position where
  pass : Nat
  lane : Nat
  slice : Nat
  index : Nat

/-- The read-only part of `argon2_instance_t` used by `fill_segment`.
The block matrix itself is passed separately (the C struct holds it as a
pointer).  The field `indexAlpha` is modelled from the spec: the
reference-index derivation `index_alpha(instance, position, random_low32,
same_lane)` is an external collaborator whose definition is not part of
the sources under verification; it is treated as a supplied pure
function of the position, the low 32 random bits and the same-lane
flag. -/
structure Config where
  version : Nat
  passes : Nat
  memoryBlocks : Nat
  segmentLength : Nat
  laneLength : Nat
  lanes : Nat
  type : Nat
  indexAlpha : Position → Nat → Bool → Nat

/-- The memory matrix: block contents indexed by global block offset. -/
abbrev Mem : Type := Nat → Block

def updateMem (m : Mem) (k : Nat) (b : Block) : Mem :=
  fun j => if j = k then b else m j

/-- `next_addresses(address_block, input_block)`: increment the counter
word `input_block->v[6]` (64-bit wraparound), then run `fill_block` twice
with a zero state and no XOR-accumulation.  Returns the new
`(address_block, input_block)` pair. -/
def nextAddresses (addr input : Block) : Block × Block :=
  let input1 := input.setWord 6 ((input.word 6 + 1) % 2^64)
  let addr1 := (fill_block zeroBlock input1 addr false).2
  let addr2 := (fill_block zeroBlock addr1 addr1 false).2
  (addr2, input1)

/-- The `data_independent_addressing` flag of `fill_segment`. -/
def dataIndependentAddressing (c : Config) (pass slice : Nat) : Bool :=
  (c.type == Argon2_i) ||
    (c.type == Argon2_id && pass == 0 &&
      decide (slice < ARGON2_SYNC_POINTS / 2))

/-- `starting_index`: 2 for the very first segment (pass 0, slice 0),
whose first two blocks were seeded by the orchestrator, else 0. -/
def startingIndex (pos : Position) : Nat :=
  if pos.pass = 0 ∧ pos.slice = 0 then 2 else 0

/-- The seeded `input_block` prepared under data-independent addressing:
zero-initialised, then words 0..5 set to pass, lane, slice,
memory_blocks, passes and type. -/
def seedInput (c : Config) (pos : Position) : Block :=
  (((((zeroBlock.setWord 0 pos.pass).setWord 1 pos.lane).setWord 2
      pos.slice).setWord 3 c.memoryBlocks).setWord 4 c.passes).setWord 5
    c.type

/-- The mutable locals of the `fill_segment` loop. -/
structure FillState where
  i : Nat
  curr : Nat
  prev : Nat
  state : Block
  addr : Block
  input : Block
  mem : Mem

/-- The in-loop `prev_offset` fixup: `prev_offset = curr_offset - 1`
whenever `curr_offset % lane_length == 1`. -/
def recomputePrev (laneLen curr prev : Nat) : Nat :=
  if curr % laneLen = 1 then curr - 1 else prev

/-- The `(address_block, input_block)` pair in effect for the current
iteration: regenerated via `next_addresses` when addressing is
data-independent and `i % ARGON2_ADDRESSES_IN_BLOCK == 0`, otherwise
unchanged. -/
def addrUsedPair (c : Config) (pos : Position) (s : FillState) :
    Block × Block :=
  if dataIndependentAddressing c pos.pass pos.slice &&
      s.i % ARGON2_ADDRESSES_IN_BLOCK == 0 then
    nextAddresses s.addr s.input
  else
    (s.addr, s.input)

/-- The 64-bit `pseudo_rand` drawn in the current iteration: from the
current address block at `i % ARGON2_ADDRESSES_IN_BLOCK` when
data-independent, else the first word of the block at the (fixed-up)
`prev_offset`. -/
def pseudoRandUsed (c : Config) (pos : Position) (s : FillState) : Nat :=
  if dataIndependentAddressing c pos.pass pos.slice then
    ((addrUsedPair c pos s).1).word (s.i % ARGON2_ADDRESSES_IN_BLOCK)
  else
    (s.mem (recomputePrev c.laneLength s.curr s.prev)).word 0

/-- The reference lane: `(pseudo_rand >> 32) % lanes`, overwritten with
the current lane on pass 0, slice 0. -/
def refLaneUsed (c : Config) (pos : Position) (pseudoRand : Nat) : Nat :=
  let rl := (pseudoRand >>> 32) % c.lanes
  if pos.pass = 0 ∧ pos.slice = 0 then pos.lane else rl

/-- The `with_xor` flag passed to `fill_block`: 0 for version 1.0, 0 on
pass 0 for later versions, 1 otherwise. -/
def accumulateFlag (version pass : Nat) : Bool :=
  if version = ARGON2_VERSION_10 then false
  else if pass = 0 then false else true

/-- One iteration of the `fill_segment` loop: fix up `prev_offset`,
draw `pseudo_rand` (regenerating the address block when due), choose
`ref_lane` and `ref_index`, run `fill_block` into the block at
`curr_offset`, and advance the offsets. -/
def fillStep (c : Config) (pos : Position) (s : FillState) : FillState :=
  let prevU := recomputePrev c.laneLength s.curr s.prev
  let ap := addrUsedPair c pos s
  let pr := pseudoRandUsed c pos s
  let refLane := refLaneUsed c pos pr
  let refIndex :=
    c.indexAlpha ⟨pos.pass, pos.lane, pos.slice, s.i⟩ (pr &&& 4294967295)
      (refLane == pos.lane)
  let refBlock := s.mem (c.laneLength * refLane + refIndex)
  let currBlock := s.mem s.curr
  let fb := fill_block s.state refBlock currBlock
    (accumulateFlag c.version pos.pass)
  ⟨s.i + 1, s.curr + 1, prevU + 1, fb.1, ap.1, ap.2,
    updateMem s.mem s.curr fb.2⟩

/-- The state of the `fill_segment` locals just before the loop:
`starting_index`, the initial `curr_offset`/`prev_offset` (with the
lane-wrap for a lane-initial `curr_offset`), the 1024-byte copy of the
block at `prev_offset` into `state`, and — for the very first segment
under data-independent addressing — the pre-generated address block. -/
def fillInit (c : Config) (pos : Position) (mem : Mem) : FillState :=
  let dif := dataIndependentAddressing c pos.pass pos.slice
  let input0 := if dif then seedInput c pos else zeroBlock
  let start := startingIndex pos
  let ai :=
    if (pos.pass = 0 ∧ pos.slice = 0) ∧ dif then
      nextAddresses zeroBlock input0
    else
      (zeroBlock, input0)
  let curr := pos.lane * c.laneLength + pos.slice * c.segmentLength + start
  let prev :=
    if curr % c.laneLength = 0 then curr + c.laneLength - 1 else curr - 1
  ⟨start, curr, prev, mem prev, ai.1, ai.2, mem⟩

/-- Iterate `fillStep` a given number of times. -/
def fillLoop (c : Config) (pos : Position) : Nat → FillState → FillState
  | 0, s => s
  | Nat.succ k, s => fillLoop c pos k (fillStep c pos s)

/-- `fill_segment(instance, position)`: a silent no-op for a null
instance, else run the loop for `segment_length - starting_index`
iterations from the initial state and return the final memory matrix. -/
def fill_segment (inst : Option Config) (pos : Position) (mem : Mem) :
    Mem :=
  match inst with
  | none => mem
  | some c =>
      (fillLoop c pos (c.segmentLength - startingIndex pos)
        (fillInit c pos mem)).mem

/-! ## Spec-side definitions

The following definitions transcribe the specification's wording, to be
compared against the source translations above. -/

/-- Written from the spec: `lo32` extracts the low 32 bits of a 64-bit
lane treated as an unsigned integer. -/
def lo32 (x : Nat) : Nat := x % 2^32

/-- Written from the spec: `f(x,y) = x + y + 2 * (lo32(x) * lo32(y))`,
all arithmetic modulo `2^64`. -/
def specF (x y : Nat) : Nat := (x + y + 2 * (lo32 x * lo32 y)) % 2^64

/-- Written from the spec: the unsigned 64-bit right rotation of
`x < 2^64` by `n ≤ 64` bits. -/
def rotr64 (x n : Nat) : Nat := x / 2^n + x % 2^n * 2^(64 - n)

/-- Written from the spec: quarter-round G1,
`A = f(A,B); D = rotate_right(D xor A, 32); C = f(C,D);
B = rotate_right(B xor C, 24)`. -/
def g1Spec (a b c d : Nat) : Nat × Nat × Nat × Nat :=
  let a1 := specF a b
  let d1 := rotr64 (d ^^^ a1) 32
  let c1 := specF c d1
  let b1 := rotr64 (b ^^^ c1) 24
  (a1, b1, c1, d1)

/-- Written from the spec: quarter-round G2, identical to G1 but with
rotation distances 16 and 63. -/
def g2Spec (a b c d : Nat) : Nat × Nat × Nat × Nat :=
  let a1 := specF a b
  let d1 := rotr64 (d ^^^ a1) 16
  let c1 := specF c d1
  let b1 := rotr64 (b ^^^ c1) 63
  (a1, b1, c1, d1)

/-! ## Helper lemmas -/

theorem fBlaMka_eq (x y : Nat) : fBlaMka_vsx x y = specF x y := by
  simp only [fBlaMka_vsx, specF, lo32]
  omega

theorem fBlaMka_lt (x y : Nat) : fBlaMka_vsx x y < 2^64 := by
  simp only [fBlaMka_vsx]
  omega

theorem rotPerm32_eq (x : Nat) (hx : x < 2^64) :
    rotPerm32 x = rotr64 x 32 := by
  unfold rotPerm32 rotr64
  omega

theorem rotPerm24_eq (x : Nat) (hx : x < 2^64) :
    rotPerm24 x = rotr64 x 24 := by
  unfold rotPerm24 rotr64
  omega

theorem rotPerm16_eq (x : Nat) (hx : x < 2^64) :
    rotPerm16 x = rotr64 x 16 := by
  unfold rotPerm16 rotr64
  omega

theorem xor_two_mul_one (m : Nat) : 2 * m ^^^ 1 = 2 * m + 1 := by
  apply Nat.eq_of_testBit_eq
  intro i
  cases i with
  | zero => simp [Nat.testBit_xor]
  | succ j =>
    have h1 : 2 * m / 2 = m := by omega
    have h2 : (2 * m + 1) / 2 = m := by omega
    rw [Nat.testBit_xor]
    simp [Nat.testBit_succ, h1, h2]

theorem vsxRot63_eq (x : Nat) (hx : x < 2^64) :
    vsxRot63 x = rotr64 x 63 := by
  unfold vsxRot63 rotr64
  rw [Nat.shiftRight_eq_div_pow]
  have hadd : (x + x) % 2^64 = 2 * (x % 2^63) := by omega
  have hdiv : x / 2^63 = 0 ∨ x / 2^63 = 1 := by omega
  rcases hdiv with h | h
  · rw [hadd, h, Nat.zero_xor]
    omega
  · rw [hadd, h, Nat.xor_comm, xor_two_mul_one]
    omega

theorem g1_eq (a b c d : Nat) (hb : b < 2^64) (hd : d < 2^64) :
    g1 a b c d = g1Spec a b c d := by
  unfold g1 g1Spec
  simp only [fBlaMka_eq]
  rw [rotPerm32_eq _ (Nat.xor_lt_two_pow hd (fBlaMka_eq a b ▸ fBlaMka_lt a b)),
    rotPerm24_eq _ (Nat.xor_lt_two_pow hb (fBlaMka_eq c _ ▸ fBlaMka_lt c _))]

theorem g2_eq (a b c d : Nat) (hb : b < 2^64) (hd : d < 2^64) :
    g2 a b c d = g2Spec a b c d := by
  unfold g2 g2Spec
  simp only [fBlaMka_eq]
  rw [rotPerm16_eq _ (Nat.xor_lt_two_pow hd (fBlaMka_eq a b ▸ fBlaMka_lt a b)),
    vsxRot63_eq _ (Nat.xor_lt_two_pow hb (fBlaMka_eq c _ ▸ fBlaMka_lt c _))]

theorem laneXor_assoc (x y z : Lane) :
    laneXor (laneXor x y) z = laneXor x (laneXor y z) := by
  simp [laneXor, Nat.xor_assoc]

theorem laneXor_comm (x y : Lane) : laneXor x y = laneXor y x := by
  simp [laneXor, Nat.xor_comm]

theorem Oct.map2_assoc {α : Type} {f : α → α → α}
    (hf : ∀ x y z, f (f x y) z = f x (f y z)) (a b c : Oct α) :
    Oct.map2 f (Oct.map2 f a b) c = Oct.map2 f a (Oct.map2 f b c) := by
  cases a
  cases b
  cases c
  simp [Oct.map2, hf]

theorem Oct.map2_comm {α : Type} {f : α → α → α}
    (hf : ∀ x y, f x y = f y x) (a b : Oct α) :
    Oct.map2 f a b = Oct.map2 f b a := by
  cases a
  cases b
  simp [Oct.map2]
  refine ⟨hf _ _, hf _ _, hf _ _, hf _ _, hf _ _, hf _ _, hf _ _, hf _ _⟩

theorem xorB_assoc (a b c : Block) :
    xorB (xorB a b) c = xorB a (xorB b c) :=
  Oct.map2_assoc (fun x y z => Oct.map2_assoc laneXor_assoc x y z) a b c

theorem xorB_comm (a b : Block) : xorB a b = xorB b a :=
  Oct.map2_comm (fun x y => Oct.map2_comm laneXor_comm x y) a b

/-- Written from the claim's wording for `fill_block`: the post-XOR
state `x` (including the old `next_block` when accumulating) is both
saved as `pre_permutation` and fed to the permutation network. -/
def fillBlockClaim (state ref next : Block) (withXor : Bool) :
    Block × Block :=
  let x := if withXor then xorB (xorB state ref) next
           else xorB state ref
  let out := xorB (permuteCore x) x
  (out, out)

/-- The amended wording for `fill_block`: the permutation network is
applied to `state XOR ref_block` only; `pre_permutation` additionally
XORs in the old `next_block` when accumulating. -/
def fillBlockAmended (state ref next : Block) (withXor : Bool) :
    Block × Block :=
  let x0 := xorB state ref
  let pre := if withXor then xorB x0 next else x0
  let out := xorB (permuteCore x0) pre
  (out, out)

/-- A block whose word `v[0]` is 1 and whose other 127 words are 0. -/
def e0Block : Block := zeroBlock.setWord 0 1

/-- `DIAGONALIZE_VSX` as a transform of the full 8-register working set,
in the macro's parameter order `(A0, B0, C0, D0, A1, B1, C1, D1)`
(`A0`/`A1` are untouched). -/
def diag8 (t : Lane × Lane × Lane × Lane × Lane × Lane × Lane × Lane) :
    Lane × Lane × Lane × Lane × Lane × Lane × Lane × Lane :=
  let d := diagonalize t.2.1 t.2.2.2.2.2.1 t.2.2.1 t.2.2.2.2.2.2.1
    t.2.2.2.1 t.2.2.2.2.2.2.2
  (t.1, d.1, d.2.2.1, d.2.2.2.2.1, t.2.2.2.2.1, d.2.1, d.2.2.2.1,
    d.2.2.2.2.2)

/-- `UNDIAGONALIZE_VSX` as a transform of the full 8-register working
set, in the macro's parameter order. -/
def undiag8 (t : Lane × Lane × Lane × Lane × Lane × Lane × Lane × Lane) :
    Lane × Lane × Lane × Lane × Lane × Lane × Lane × Lane :=
  let d := undiagonalize t.2.1 t.2.2.2.2.2.1 t.2.2.1 t.2.2.2.2.2.2.1
    t.2.2.2.1 t.2.2.2.2.2.2.2
  (t.1, d.1, d.2.2.1, d.2.2.2.2.1, t.2.2.2.2.1, d.2.1, d.2.2.2.1,
    d.2.2.2.2.2)

/-! ## Claims -/

/-- C1, counterexample: with `state = ref = 0`, `next = e0Block` and
`accumulate = true`, the code writes `v[0] = 1` into `next_block`
(the permutation of the all-zero `state XOR ref` is zero), whereas the
claimed dataflow — permuting the full post-XOR state including
`next_block` — would write the word `v[0]` of
`P(e0Block) XOR e0Block`, which differs. -/
theorem c1_fill_block_counterexample :
    (fill_block zeroBlock zeroBlock e0Block true).2.word 0 ≠
      (fillBlockClaim zeroBlock zeroBlock e0Block true).2.word 0 := by
  decide

/-- C1 (amended): `fill_block` XORs `state` with `ref_block`
element-wise, saves that value — additionally XORed with the current
contents of `next_block` when `accumulate` is true — as
`pre_permutation`, applies the 8-row-then-8-column permutation network
to `state XOR ref_block` (not including `next_block`), XORs the permuted
result with `pre_permutation`, writes that value into `next_block`, and
retains the same value as the new state. -/
theorem c1_fill_block_dataflow (state ref next : Block) (withXor : Bool) :
    fill_block state ref next withXor =
      fillBlockAmended state ref next withXor := by
  rfl

/-- C2: for every pair of 64-bit unsigned integers, `fBlaMka_vsx`
computes `(x + y + 2 * (lo32 x * lo32 y)) mod 2^64` — wraparound, no
saturation or trapping. -/
theorem c2_fBlaMka_spec (x y : Nat) (_hx : x < 2^64) (_hy : y < 2^64) :
    fBlaMka_vsx x y = specF x y :=
  fBlaMka_eq x y

theorem c2_fBlaMka_spec_witness :
    fBlaMka_vsx 3 5 = specF 3 5 :=
  c2_fBlaMka_spec 3 5 (by decide) (by decide)

/-- C3: on 64-bit inputs, quarter-round G1 computes
`A = f(A,B); D = rotr(D xor A, 32); C = f(C,D); B = rotr(B xor C, 24)`
and quarter-round G2 performs the identical sequence with rotation
distances 16 and 63, the rotations being unsigned 64-bit right
rotations.  (`G1_VSX`/`G2_VSX` apply `g1`/`g2` word-wise to two parallel
register quadruples inside `blake2Round`.) -/
theorem c3_quarter_rounds (a b c d : Nat) (_ha : a < 2^64) (hb : b < 2^64)
    (_hc : c < 2^64) (hd : d < 2^64) :
    g1 a b c d = g1Spec a b c d ∧ g2 a b c d = g2Spec a b c d :=
  ⟨g1_eq a b c d hb hd, g2_eq a b c d hb hd⟩

theorem c3_quarter_rounds_witness :
    g1 1 2 3 4 = g1Spec 1 2 3 4 ∧ g2 1 2 3 4 = g2Spec 1 2 3 4 :=
  c3_quarter_rounds 1 2 3 4 (by decide) (by decide) (by decide)
    (by decide)

/-- C4: applying `DIAGONALIZE_VSX` and then `UNDIAGONALIZE_VSX` to any
values of the eight working vectors returns exactly the original
values. -/
theorem c4_diagonalize_roundtrip
    (t : Lane × Lane × Lane × Lane × Lane × Lane × Lane × Lane) :
    undiag8 (diag8 t) = t := by
  obtain ⟨A0, B0, C0, D0, A1, B1, C1, D1⟩ := t
  rfl

/-- C5: the `with_xor` flag handed to `fill_block` is false exactly for
version 1.0 or pass 0; with the flag set, the block written into
`next_block` is its prior contents XORed with the overwrite value (the
result the call would produce with the flag clear), and with the flag
clear the prior contents of `next_block` do not influence the result. -/
theorem c5_accumulate_rule (version pass : Nat) (s r n n2 : Block) :
    (accumulateFlag version pass = false ↔
       version = ARGON2_VERSION_10 ∨ pass = 0) ∧
    (fill_block s r n true).2 = xorB n (fill_block s r n false).2 ∧
    (fill_block s r n false).2 = (fill_block s r n2 false).2 := by
  refine ⟨?_, ?_, rfl⟩
  · unfold accumulateFlag
    split_ifs with h1 h2
    · simp [h1]
    · simp [h1, h2]
    · simp [h1, h2]
  · show xorB (permuteCore (xorB s r)) (xorB (xorB s r) n) =
      xorB n (xorB (permuteCore (xorB s r)) (xorB s r))
    rw [← xorB_assoc, xorB_comm _ n]

/-! ## Segment-filler lemmas -/

theorem fillStep_curr (c : Config) (pos : Position) (s : FillState) :
    (fillStep c pos s).curr = s.curr + 1 := rfl

theorem fillStep_prev (c : Config) (pos : Position) (s : FillState) :
    (fillStep c pos s).prev =
      recomputePrev c.laneLength s.curr s.prev + 1 := rfl

theorem fillLoop_zero (c : Config) (pos : Position) (s : FillState) :
    fillLoop c pos 0 s = s := rfl

theorem fillLoop_succ (c : Config) (pos : Position) (k : Nat)
    (s : FillState) :
    fillLoop c pos (k + 1) s = fillStep c pos (fillLoop c pos k s) := by
  induction k generalizing s with
  | zero => rfl
  | succ k ih => exact ih (fillStep c pos s)

theorem fillInit_curr (c : Config) (pos : Position) (mem : Mem) :
    (fillInit c pos mem).curr =
      pos.lane * c.laneLength + pos.slice * c.segmentLength +
        startingIndex pos := rfl

theorem fillInit_prev_def (c : Config) (pos : Position) (mem : Mem) :
    (fillInit c pos mem).prev =
      if (pos.lane * c.laneLength + pos.slice * c.segmentLength +
            startingIndex pos) % c.laneLength = 0 then
        pos.lane * c.laneLength + pos.slice * c.segmentLength +
          startingIndex pos + c.laneLength - 1
      else
        pos.lane * c.laneLength + pos.slice * c.segmentLength +
          startingIndex pos - 1 := rfl

theorem fillInit_state_def (c : Config) (pos : Position) (mem : Mem) :
    (fillInit c pos mem).state = mem ((fillInit c pos mem).prev) := rfl

/-- The predecessor of lane-local position `p` in the lane's circular
order of `L` positions. -/
def lanePosPred (L p : Nat) : Nat := if p = 0 then L - 1 else p - 1

theorem mod_shift (L m : Nat) (hm : m < L) (hL : 0 < L) :
    (m + L - 1) % L = lanePosPred L m := by
  unfold lanePosPred
  rcases Nat.eq_zero_or_pos m with h | h
  · rw [h, if_pos rfl, Nat.zero_add]
    exact Nat.mod_eq_of_lt (show L - 1 < L by omega)
  · have he : m + L - 1 = L + (m - 1) := by omega
    rw [if_neg (by omega), he, Nat.add_mod_left]
    exact Nat.mod_eq_of_lt (show m - 1 < L by omega)

theorem startSlice_lt_lane (c : Config) (pos : Position)
    (hL : c.laneLength = 4 * c.segmentLength) (hseg : 0 < c.segmentLength)
    (hslice : pos.slice < 4) :
    pos.slice * c.segmentLength + startingIndex pos < c.laneLength := by
  have h3 : pos.slice * c.segmentLength ≤ 3 * c.segmentLength :=
    Nat.mul_le_mul_right _ (by omega)
  have hs0 : pos.slice = 0 ∨ startingIndex pos = 0 := by
    unfold startingIndex
    by_cases h : pos.pass = 0 ∧ pos.slice = 0
    · exact Or.inl h.2
    · rw [if_neg h]
      exact Or.inr rfl
  have hs2 : startingIndex pos ≤ 2 := by
    unfold startingIndex
    split <;> omega
  rcases hs0 with h | h
  · rw [h]
    omega
  · rw [h]
    omega

theorem init_prev_eq (c : Config) (pos : Position) (mem : Mem)
    (hL : c.laneLength = 4 * c.segmentLength) (hseg : 0 < c.segmentLength)
    (hslice : pos.slice < 4) :
    (fillInit c pos mem).prev =
      pos.lane * c.laneLength +
        lanePosPred c.laneLength
          (pos.slice * c.segmentLength + startingIndex pos) := by
  have hp0 := startSlice_lt_lane c pos hL hseg hslice
  have hcm : (pos.lane * c.laneLength + pos.slice * c.segmentLength +
      startingIndex pos) % c.laneLength =
      pos.slice * c.segmentLength + startingIndex pos := by
    rw [Nat.add_assoc, Nat.mul_comm pos.lane c.laneLength, Nat.mul_add_mod]
    exact Nat.mod_eq_of_lt hp0
  rw [fillInit_prev_def, hcm]
  unfold lanePosPred
  split_ifs <;> omega

theorem fill_inv (c : Config) (pos : Position) (mem : Mem)
    (hL : c.laneLength = 4 * c.segmentLength) (hseg : 0 < c.segmentLength)
    (hslice : pos.slice < 4) :
    ∀ k, startingIndex pos + k < c.segmentLength →
      (fillLoop c pos k (fillInit c pos mem)).curr =
        pos.lane * c.laneLength +
          (pos.slice * c.segmentLength + (startingIndex pos + k)) ∧
      recomputePrev c.laneLength
          (fillLoop c pos k (fillInit c pos mem)).curr
          (fillLoop c pos k (fillInit c pos mem)).prev =
        pos.lane * c.laneLength +
          lanePosPred c.laneLength
            (pos.slice * c.segmentLength + (startingIndex pos + k)) := by
  have hp00 := startSlice_lt_lane c pos hL hseg hslice
  have h3 : pos.slice * c.segmentLength ≤ 3 * c.segmentLength :=
    Nat.mul_le_mul_right _ (by omega)
  have hLpos : 0 < c.laneLength := by omega
  intro k
  induction k with
  | zero =>
    intro hk
    rw [fillLoop_zero]
    constructor
    · rw [fillInit_curr]
      omega
    · have hcm : (pos.lane * c.laneLength + pos.slice * c.segmentLength +
          startingIndex pos) % c.laneLength =
          pos.slice * c.segmentLength + startingIndex pos := by
        rw [Nat.add_assoc, Nat.mul_comm pos.lane c.laneLength,
          Nat.mul_add_mod]
        exact Nat.mod_eq_of_lt hp00
      unfold recomputePrev
      rw [fillInit_curr, fillInit_prev_def, hcm]
      unfold lanePosPred
      split_ifs <;> omega
  | succ k ih =>
    intro hk
    have hk' : startingIndex pos + k < c.segmentLength := by omega
    have hmk1 : pos.slice * c.segmentLength + (startingIndex pos + k) + 1 <
        c.laneLength := by omega
    obtain ⟨ihc, ihp⟩ := ih hk'
    rw [fillLoop_succ]
    constructor
    · rw [fillStep_curr, ihc]
      omega
    · rw [fillStep_curr, fillStep_prev, ihp, ihc]
      have hcm2 : (pos.lane * c.laneLength +
          (pos.slice * c.segmentLength + (startingIndex pos + k)) + 1) %
            c.laneLength =
          pos.slice * c.segmentLength + (startingIndex pos + k) + 1 := by
        rw [Nat.add_assoc, Nat.mul_comm pos.lane c.laneLength,
          Nat.mul_add_mod]
        exact Nat.mod_eq_of_lt (by omega)
      unfold recomputePrev
      rw [hcm2]
      unfold lanePosPred
      split_ifs <;> omega

/-- Written from the claim's wording for the in-loop `prev_offset` rule:
recompute with lane-wrap whenever `curr_offset` lands on the first
position of the lane, keep it otherwise. -/
def claimInLoopPrev (laneLen curr prev : Nat) : Nat :=
  if curr % laneLen = 0 then curr + laneLen - 1 else prev

/-- A trivial stand-in for the external `index_alpha` collaborator, used
only to build concrete sample configurations. -/
def sampleIndexAlpha : Position → Nat → Bool → Nat := fun _ _ _ => 0

/-- Sample configuration: data-dependent variant, version 0x13, 1 lane,
lane length 8, segment length 2. -/
def cfgA : Config := ⟨19, 2, 8, 2, 8, 1, Argon2_d, sampleIndexAlpha⟩

/-- Sample configuration: data-independent variant, version 0x13,
1 lane, lane length 8, segment length 2. -/
def cfgB : Config := ⟨19, 2, 8, 2, 8, 1, Argon2_i, sampleIndexAlpha⟩

/-- An all-zero memory matrix. -/
def memZ : Mem := fun _ => zeroBlock

def pos00 : Position := ⟨0, 0, 0, 0⟩

def posB1 : Position := ⟨1, 0, 2, 0⟩

def posC8 : Position := ⟨1, 0, 0, 0⟩

/-- The loop state of `fill_segment(cfgA, pass 1, lane 0, slice 0)` at
the start of its second iteration (`i = 1`, `curr_offset = 1`). -/
def c8state : FillState := fillLoop cfgA posC8 1 (fillInit cfgA posC8 memZ)

/-- Sample loop state with `i = 0` (an address-regeneration point). -/
def fs0 : FillState := ⟨0, 2, 1, zeroBlock, zeroBlock, zeroBlock, memZ⟩

/-- Sample loop state with `i = 1` (not a regeneration point). -/
def fs1 : FillState := ⟨1, 3, 2, zeroBlock, zeroBlock, zeroBlock, memZ⟩

/-- C6: each iteration computes `ref_lane = (pseudo_rand >> 32) % lanes`
and unconditionally forces `ref_lane` to the current lane on pass 0,
slice 0. -/
theorem c6_ref_lane_rule (c : Config) (pos : Position) (pr : Nat) :
    (pos.pass = 0 ∧ pos.slice = 0 → refLaneUsed c pos pr = pos.lane) ∧
    (¬(pos.pass = 0 ∧ pos.slice = 0) →
      refLaneUsed c pos pr = (pr >>> 32) % c.lanes) := by
  constructor
  · intro h
    simp [refLaneUsed, h]
  · intro h
    simp [refLaneUsed, h]

theorem c6_ref_lane_rule_witness :
    refLaneUsed cfgA pos00 12345 = pos00.lane ∧
    refLaneUsed cfgA posB1 (2^33) = ((2^33 : Nat) >>> 32) % cfgA.lanes :=
  ⟨(c6_ref_lane_rule cfgA pos00 12345).1 (by decide),
   (c6_ref_lane_rule cfgA posB1 (2^33)).2 (by decide)⟩

/-- C7: under data-independent addressing the pseudo-random value of
iteration `i` is word `i % 128` of the address block in effect, that
block is regenerated through `next_addresses` exactly when
`i % 128 = 0` (and pre-generated before the loop of the very first
segment), and `next_addresses` increments the counter word `v[6]` of
the input block modulo `2^64`. -/
theorem c7_address_regeneration (c : Config) (pos : Position)
    (s s1 : FillState) (a inp : Block) (mem : Mem) :
    ((nextAddresses a inp).2.word 6 = (inp.word 6 + 1) % 2^64) ∧
    (dataIndependentAddressing c pos.pass pos.slice = true →
      (s.i % ARGON2_ADDRESSES_IN_BLOCK = 0 →
        addrUsedPair c pos s = nextAddresses s.addr s.input) ∧
      (s1.i % ARGON2_ADDRESSES_IN_BLOCK ≠ 0 →
        addrUsedPair c pos s1 = (s1.addr, s1.input)) ∧
      pseudoRandUsed c pos s =
        ((addrUsedPair c pos s).1).word
          (s.i % ARGON2_ADDRESSES_IN_BLOCK)) ∧
    (pos.pass = 0 ∧ pos.slice = 0 →
      dataIndependentAddressing c pos.pass pos.slice = true →
      (fillInit c pos mem).addr =
        (nextAddresses zeroBlock (seedInput c pos)).1) := by
  refine ⟨rfl, fun hdi => ⟨?_, ?_, ?_⟩, fun h hdi => ?_⟩
  · intro h0
    simp [addrUsedPair, hdi, h0]
  · intro h1
    simp [addrUsedPair, hdi, h1]
  · simp [pseudoRandUsed, hdi]
  · obtain ⟨hp, hs⟩ := h
    rw [hp, hs] at hdi
    simp [fillInit, hp, hs, hdi]

theorem c7_address_regeneration_witness :
    (nextAddresses zeroBlock zeroBlock).2.word 6 =
      (zeroBlock.word 6 + 1) % 2^64 ∧
    addrUsedPair cfgB pos00 fs0 = nextAddresses fs0.addr fs0.input ∧
    addrUsedPair cfgB pos00 fs1 = (fs1.addr, fs1.input) ∧
    pseudoRandUsed cfgB pos00 fs0 =
      ((addrUsedPair cfgB pos00 fs0).1).word
        (fs0.i % ARGON2_ADDRESSES_IN_BLOCK) ∧
    (fillInit cfgB pos00 memZ).addr =
      (nextAddresses zeroBlock (seedInput cfgB pos00)).1 := by
  have h := c7_address_regeneration cfgB pos00 fs0 fs1 zeroBlock zeroBlock
    memZ
  have hdi : dataIndependentAddressing cfgB pos00.pass pos00.slice = true :=
    by decide
  obtain ⟨h1, h2, h3⟩ := h
  obtain ⟨h2a, h2b, h2c⟩ := h2 hdi
  exact ⟨h1, h2a (by decide), h2b (by decide), h2c, h3 (by decide) hdi⟩

/-- C8, counterexample: running `fill_segment(cfgA, pass 1, lane 0,
slice 0)` reaches, at the start of its second iteration, the state
`curr_offset = 1`, `prev_offset = 8`.  The code recomputes the used
`prev_offset` to 0 there (`curr_offset % lane_length == 1`, the lane's
second position) — the circular predecessor of offset 1 — whereas the
claimed rule (recompute only when `curr_offset` lands on the first
position of the lane) keeps 8, which is not the circular predecessor
of 1 and lies outside the lane. -/
theorem c8_counterexample :
    c8state.curr = 1 ∧ c8state.prev = 8 ∧
    recomputePrev cfgA.laneLength c8state.curr c8state.prev = 0 ∧
    claimInLoopPrev cfgA.laneLength c8state.curr c8state.prev = 8 ∧
    claimInLoopPrev cfgA.laneLength c8state.curr c8state.prev ≠
      recomputePrev cfgA.laneLength c8state.curr c8state.prev := by
  refine ⟨by decide, by decide, by decide, by decide, by decide⟩

/-- C8 (amended): throughout `fill_segment`, the `prev_offset` in effect
at each iteration's point of use is the circular predecessor, within the
current lane, of `curr_offset`: it is established before the loop (with
lane-wrap when filling starts at the lane's first position) and
recomputed inside the loop — as `curr_offset - 1`, whenever
`curr_offset` lands on the lane's second position (offset `1 mod
lane_length`) — so that the data-dependent `pseudo_rand` is always read
from the circular predecessor of the block being filled. -/
theorem c8_prev_offset_invariant (c : Config) (pos : Position) (mem : Mem)
    (hL : c.laneLength = 4 * c.segmentLength) (hseg : 0 < c.segmentLength)
    (hslice : pos.slice < 4) (k : Nat)
    (hk : startingIndex pos + k < c.segmentLength) :
    recomputePrev c.laneLength
        (fillLoop c pos k (fillInit c pos mem)).curr
        (fillLoop c pos k (fillInit c pos mem)).prev =
      pos.lane * c.laneLength +
        (pos.slice * c.segmentLength + (startingIndex pos + k) +
          c.laneLength - 1) % c.laneLength ∧
    (fillLoop c pos k (fillInit c pos mem)).curr =
      pos.lane * c.laneLength +
        (pos.slice * c.segmentLength + (startingIndex pos + k)) ∧
    (dataIndependentAddressing c pos.pass pos.slice = false →
      pseudoRandUsed c pos (fillLoop c pos k (fillInit c pos mem)) =
        ((fillLoop c pos k (fillInit c pos mem)).mem
          (pos.lane * c.laneLength +
            (pos.slice * c.segmentLength + (startingIndex pos + k) +
              c.laneLength - 1) % c.laneLength)).word 0) := by
  have hinv := fill_inv c pos mem hL hseg hslice k hk
  have h3 : pos.slice * c.segmentLength ≤ 3 * c.segmentLength :=
    Nat.mul_le_mul_right _ (by omega)
  have hs2 : startingIndex pos + k < c.segmentLength := hk
  have hm : pos.slice * c.segmentLength + (startingIndex pos + k) <
      c.laneLength := by omega
  have hmod := mod_shift c.laneLength
    (pos.slice * c.segmentLength + (startingIndex pos + k)) hm (by omega)
  refine ⟨?_, hinv.1, fun hdi => ?_⟩
  · rw [hinv.2, hmod]
  · simp only [pseudoRandUsed, hdi]
    rw [hinv.2, hmod]
    simp

theorem c8_prev_offset_invariant_witness :
    recomputePrev cfgA.laneLength
        (fillLoop cfgA posC8 1 (fillInit cfgA posC8 memZ)).curr
        (fillLoop cfgA posC8 1 (fillInit cfgA posC8 memZ)).prev =
      posC8.lane * cfgA.laneLength +
        (posC8.slice * cfgA.segmentLength + (startingIndex posC8 + 1) +
          cfgA.laneLength - 1) % cfgA.laneLength ∧
    (fillLoop cfgA posC8 1 (fillInit cfgA posC8 memZ)).curr =
      posC8.lane * cfgA.laneLength +
        (posC8.slice * cfgA.segmentLength + (startingIndex posC8 + 1)) ∧
    pseudoRandUsed cfgA posC8 (fillLoop cfgA posC8 1 (fillInit cfgA posC8 memZ)) =
      ((fillLoop cfgA posC8 1 (fillInit cfgA posC8 memZ)).mem
        (posC8.lane * cfgA.laneLength +
          (posC8.slice * cfgA.segmentLength + (startingIndex posC8 + 1) +
            cfgA.laneLength - 1) % cfgA.laneLength)).word 0 := by
  have h := c8_prev_offset_invariant cfgA posC8 memZ (by decide) (by decide)
    (by decide) 1 (by decide)
  exact ⟨h.1, h.2.1, h.2.2 (by decide)⟩

/-- C9: a null instance descriptor makes `fill_segment` a silent no-op:
the memory matrix is returned unchanged and no other effect occurs. -/
theorem c9_null_instance_noop (pos : Position) (mem : Mem) :
    fill_segment none pos mem = mem := rfl

/-- C10: before any block of the segment is filled, the working state
buffer is a copy of the block at the lane-circular predecessor offset of
the first offset to be filled. -/
theorem c10_initial_state_copy (c : Config) (pos : Position) (mem : Mem)
    (hL : c.laneLength = 4 * c.segmentLength) (hseg : 0 < c.segmentLength)
    (hslice : pos.slice < 4) :
    (fillInit c pos mem).prev =
      pos.lane * c.laneLength +
        (pos.slice * c.segmentLength + startingIndex pos +
          c.laneLength - 1) % c.laneLength ∧
    (fillInit c pos mem).state =
      mem (pos.lane * c.laneLength +
        (pos.slice * c.segmentLength + startingIndex pos +
          c.laneLength - 1) % c.laneLength) := by
  have hm := startSlice_lt_lane c pos hL hseg hslice
  have hmod := mod_shift c.laneLength
    (pos.slice * c.segmentLength + startingIndex pos) hm (by omega)
  constructor
  · rw [init_prev_eq c pos mem hL hseg hslice, hmod]
  · rw [fillInit_state_def, init_prev_eq c pos mem hL hseg hslice, hmod]

theorem c10_initial_state_copy_witness :
    (fillInit cfgA posC8 memZ).prev =
      posC8.lane * cfgA.laneLength +
        (posC8.slice * cfgA.segmentLength + startingIndex posC8 +
          cfgA.laneLength - 1) % cfgA.laneLength ∧
    (fillInit cfgA posC8 memZ).state =
      memZ (posC8.lane * cfgA.laneLength +
        (posC8.slice * cfgA.segmentLength + startingIndex posC8 +
          cfgA.laneLength - 1) % cfgA.laneLength) :=
  c10_initial_state_copy cfgA posC8 memZ (by decide) (by decide) (by decide)

end ArgonVSX
